import Mathlib

/-
Verification of the sparse-hash sampler and comparator
(shallow embedding of src/sparse-hash.py).

Conventions of the embedding:
* Byte counts, offsets and sizes are `Nat` (Python ints are unbounded and all
  quantities here are non-negative).
* The random source is an explicit stream of raw draws `rng : Nat → Nat`;
  Python `randint(lo, hi)` is modelled by reducing the next raw draw into the
  inclusive interval `[lo, hi]`.  Each loop iteration of the random strategy
  consumes fresh draws (indices ctr, ctr+1).
* The unbounded `while True` retry loop of the random strategy (src 169-195)
  is modelled with an explicit fuel counter: the boolean component of the
  result records whether the loop reached its normal exit (`bytes_ ==
  bytes_read`) within the given fuel.  The source code itself has no retry
  bound, so non-termination shows up as: for every fuel the flag is false.
* Python exceptions (ZeroDivisionError from `% 0`, the alignment `raise`,
  ValueError from `randint` with lo > hi) are modelled as error results.
* The duty strategy computes offsets with Python float division
  (src 208: `s = size_precise / cycles * c`); this is modelled exactly: the
  expression has the rational value `size_precise * c / cycles`, so the
  `s % 1 != 0` integrality check is `size_precise * c mod cycles ≠ 0` and
  `int(s)` is the exact Nat division.
* Hash digests are modelled as the full accumulated byte sequence and the
  `hexdigest()` comparison as equality of those sequences (an ideal,
  collision-free incremental hash).
-/

namespace SparseHash

/-- Model of Python `randint(lo, hi)` (both bounds inclusive) driven by one
raw draw from the random source: the draw is reduced into `[lo, hi]`.
For `lo ≤ hi` the result always lies in that interval. -/
def randint (lo hi raw : Nat) : Nat := lo + raw % (hi + 1 - lo)

/-- Overlap test of a candidate `[s, e)` against the accumulated
`read_chunks` list of `(start, end)` pairs; mirrors
`if e_ > s__ and s_ < e__` (src 183-186). -/
def overlapsAny (s e : Nat) : List (Nat × Nat) → Bool
  | [] => false
  | q :: rest => (decide (q.1 < e) && decide (s < q.2)) || overlapsAny s e rest

/-- End draw of one candidate of the random strategy (src 176-182):
if the remaining budget fits under the max random chunk size, either take
exactly the remaining budget (when it is at most the min chunk), or draw the
end in `[s+min, s+remaining]`; otherwise draw in `[s+min, s+maxRand]`. -/
def drawEnd (minC maxRand s rem raw : Nat) : Nat :=
  if rem ≤ maxRand then
    if rem ≤ minC then s + rem
    else randint (s + minC) (s + rem) raw
  else randint (s + minC) (s + maxRand) raw

/-- One-step/loop model of the `mode == "random"` branch of `chunks`
(src 169-195).  Arguments after the random source: fuel (retry bound of the
model, see header), draw counter, `bytes_` (budget), `bytes_read`, and the
accumulated `read_chunks` list of accepted `(start, end)` pairs.  Returns the
list of yielded `(offset, length)` ranges and a flag telling whether the loop
reached its normal exit within the fuel.  The guard `maxRand < rem ∧
maxRand < minC` models the ValueError Python `randint` raises when its lower
bound exceeds its upper bound (only possible in the third branch of
src 176-182); the `e < s` test models the `raise` at src 192-193. -/
def randomChunksAux (size minC maxRand : Nat) (rng : Nat → Nat) :
    Nat → Nat → Nat → Nat → List (Nat × Nat) → List (Nat × Nat) × Bool
  | 0, _, _, _, _ => ([], false)
  | fuel + 1, ctr, budget, bytesRead, acc =>
    -- below, `randint 0 (size - minC) (rng ctr)` is the start draw s_ of
    -- src 175 and `drawEnd minC maxRand s (budget - bytesRead) (rng (ctr+1))`
    -- is the end draw e_ of src 176-182
    if budget = bytesRead then ([], true)
    else if maxRand < budget - bytesRead ∧ maxRand < minC then ([], false)
    else if overlapsAny (randint 0 (size - minC) (rng ctr))
        (drawEnd minC maxRand (randint 0 (size - minC) (rng ctr))
          (budget - bytesRead) (rng (ctr + 1))) acc then
      randomChunksAux size minC maxRand rng fuel (ctr + 2) budget bytesRead acc
    else if drawEnd minC maxRand (randint 0 (size - minC) (rng ctr))
        (budget - bytesRead) (rng (ctr + 1)) < randint 0 (size - minC) (rng ctr) then
      ([], false)
    else
      let p := randomChunksAux size minC maxRand rng fuel (ctr + 2) budget
                 (bytesRead
                   + (drawEnd minC maxRand (randint 0 (size - minC) (rng ctr))
                        (budget - bytesRead) (rng (ctr + 1))
                      - randint 0 (size - minC) (rng ctr)))
                 (acc ++ [(randint 0 (size - minC) (rng ctr),
                           drawEnd minC maxRand (randint 0 (size - minC) (rng ctr))
                             (budget - bytesRead) (rng (ctr + 1)))])
      ((randint 0 (size - minC) (rng ctr),
        drawEnd minC maxRand (randint 0 (size - minC) (rng ctr))
          (budget - bytesRead) (rng (ctr + 1))
        - randint 0 (size - minC) (rng ctr)) :: p.1, p.2)

/-- Random strategy entry point.  `minRaw` is the caller-supplied minimum
random chunk size; it is clamped to the stream size exactly as at
src 138-143 (`MIN_RAND_CHUNK_SIZE = f_size` when `f_size` is smaller). -/
def randomChunks (size minRaw maxRand : Nat) (rng : Nat → Nat)
    (fuel budget : Nat) : List (Nat × Nat) × Bool :=
  let minC := if size < minRaw then size else minRaw
  randomChunksAux size minC maxRand rng fuel 0 budget 0 []

/-- Python exceptions raised inside the duty branch of `chunks`:
`ZeroDivisionError` from `%` with zero modulus (src 197/199) and the
explicit byte-alignment `raise` (src 209-210). -/
inductive PyErr
  | zeroDivision
  | alignment
deriving DecidableEq

/-- Integrality of the offset of duty window `c`: the exact rational value
of Python `size_precise / cycles * c` (src 208) is `sizePrecise * c /
cycles`, which lands on a whole byte exactly when `cycles` divides
`sizePrecise * c` — the `s % 1 != 0` check of src 209. -/
def dutyOffsetInt (sizePrecise cycles c : Nat) : Bool :=
  sizePrecise * c % cycles = 0

/-- Offset of duty window `c`, the exact value of Python
`int(size_precise / cycles * c)` when that value is integral. -/
def dutyOffset (sizePrecise cycles c : Nat) : Nat :=
  sizePrecise * c / cycles

/-- Model of the `mode == "duty"` branch of `chunks` (src 196-212).
Python raises at the first non-integral offset; the model checks all window
offsets up front, which agrees with the source on every run that yields a
complete plan (and the offsets are in fact always integral, see
`dutyOffsetInt_of_dvd` below). -/
def dutyChunks (size budget duty : Nat) : Except PyErr (List (Nat × Nat)) :=
  if duty = 0 then .error .zeroDivision
  else
    let remBytes := budget % duty
    let bytesPrecise := budget - remBytes
    if bytesPrecise = 0 then .error .zeroDivision
    else
      let remSize := size % bytesPrecise
      let remBytes2 := if remSize ≤ remBytes then remSize else remBytes
      let sizePrecise := size - remSize
      let cycles := bytesPrecise / duty
      if (List.range cycles).all (fun c => dutyOffsetInt sizePrecise cycles c) then
        .ok ((List.range cycles).map
               (fun c => (dutyOffset sizePrecise cycles c, duty))
             ++ [(sizePrecise, remBytes2)])
      else .error .alignment

/-- Model of the `mode == "chunk"` (single-window) branch of `chunks`
(src 163-168): with a falsy `chunk_start` it yields `(0, bytes_)`; otherwise
it yields `(chunk_start, chunk_start + bytes_)`.  Note the second component
of every yielded pair is consumed as a length by the main loop
(src 238-248). -/
def chunkModeChunks (chunkStart budget : Nat) : List (Nat × Nat) :=
  if chunkStart = 0 then [(0, budget)] else [(chunkStart, chunkStart + budget)]

/-- Strategy selector of `chunks` (src 161). -/
inductive Mode
  | chunk
  | random
  | duty
deriving DecidableEq

/-- Failure of plan generation: a Python exception, or (random strategy
only) the retry loop did not reach its exit within the model fuel. -/
inductive PlanErr
  | py (e : PyErr)
  | noTermination
deriving DecidableEq

/-- The `chunks` generator (src 161-212) as a whole: dispatch on the mode.
Only the random branch consults the random source or the fuel. -/
def chunksModel (mode : Mode) (size budget chunkStart duty minRaw maxRand : Nat)
    (rng : Nat → Nat) (fuel : Nat) : Except PlanErr (List (Nat × Nat)) :=
  match mode with
  | .chunk => .ok (chunkModeChunks chunkStart budget)
  | .random =>
    match randomChunks size minRaw maxRand rng fuel budget with
    | (plan, true) => .ok plan
    | (_, false) => .error .noTermination
  | .duty =>
    match dutyChunks size budget duty with
    | .ok plan => .ok plan
    | .error e => .error (.py e)

/-- Sum of the lengths of a plan of `(offset, length)` ranges. -/
def sumLens (plan : List (Nat × Nat)) : Nat := (plan.map Prod.snd).sum

/-- Non-overlap of two `(offset, length)` ranges, as stated in the spec:
one ends at or before the other starts. -/
def noOv (a b : Nat × Nat) : Prop := a.1 + a.2 ≤ b.1 ∨ b.1 + b.2 ≤ a.1

/-- State of the comparator: positions of the two streams and the byte
sequences fed so far into the two digests (see header: digests are
modelled as accumulated bytes), plus `tot_read` (src 217, 241). -/
structure CompState where
  pos0 : Nat
  pos1 : Nat
  acc0 : List Nat
  acc1 : List Nat
  totRead : Nat
deriving DecidableEq

/-- Python `f.read(n)` on a stream with contents `f` at position `pos`:
returns up to `n` bytes, fewer at end of stream. -/
def readBytes (f : List Nat) (pos n : Nat) : List Nat := (f.drop pos).take n

/-- Model of `read_and_digest` (src 227-234): read `n` bytes from each
stream, feed both digests, and compare them; on divergence the run stops
with the interval `(s, s + chunk)` where `s` and `chunk` are the enclosing
main-loop variables at the time of the call (`chunk` is the not yet consumed
part of the current range).  The source never inspects the lengths of the
returned buffers. -/
def read_and_digest (f0 f1 : List Nat) (n s chunk : Nat) (st : CompState) :
    Except (Nat × Nat) CompState :=
  let b0 := readBytes f0 st.pos0 n
  let b1 := readBytes f1 st.pos1 n
  let st2 : CompState :=
    ⟨st.pos0 + b0.length, st.pos1 + b1.length,
     st.acc0 ++ b0, st.acc1 ++ b1, st.totRead⟩
  if st2.acc0 = st2.acc1 then .ok st2 else .error (s, s + chunk)

/-- Inner splitting loop of the main loop (src 243-248):
`while chunk > max_chunk_size: read_and_digest(max); chunk -= max` followed
by `read_and_digest(chunk)`.  The loop is driven by a structural fuel which
the wrapper `runPlan` instantiates with the initial `chunk`; since
`max_chunk_size` is validated positive at argument parsing (src 71-73), the
fuel never runs out before the loop condition fails. -/
def runRangeAux (f0 f1 : List Nat) (maxChunk s : Nat) :
    Nat → Nat → CompState → Except (Nat × Nat) CompState
  | 0, chunk, st => read_and_digest f0 f1 chunk s chunk st
  | fuel + 1, chunk, st =>
    if maxChunk < chunk then
      match read_and_digest f0 f1 maxChunk s chunk st with
      | .error m => .error m
      | .ok st2 => runRangeAux f0 f1 maxChunk s fuel (chunk - maxChunk) st2
    else read_and_digest f0 f1 chunk s chunk st

/-- Main loop of the comparator (src 238-248): for each range, seek both
streams to the offset, add the range length to `tot_read`, then run the
splitting loop. -/
def runPlan (f0 f1 : List Nat) (maxChunk : Nat) :
    List (Nat × Nat) → CompState → Except (Nat × Nat) CompState
  | [], st => .ok st
  | (s, chunk) :: rest, st =>
    let st2 : CompState := ⟨s, s, st.acc0, st.acc1, st.totRead + chunk⟩
    match runRangeAux f0 f1 maxChunk s chunk chunk st2 with
    | .error m => .error m
    | .ok st3 => runPlan f0 f1 maxChunk rest st3

/-- Terminal result of one comparison run: the mismatch message with its
interval (src 233), the match message with the total bytes requested
(src 254-256), or the silent fall-through when the final digest comparison
fails (unreachable: every update is followed by a comparison). -/
inductive CompResult
  | matched (totRead : Nat)
  | mismatch (lo hi : Nat)
  | silentDiff
deriving DecidableEq

/-- Initial comparator state: both streams at position 0, both digests
fresh, nothing read. -/
def initState : CompState := ⟨0, 0, [], [], 0⟩

/-- One whole comparison run over a plan (src 236-256). -/
def compareRun (f0 f1 : List Nat) (maxChunk : Nat)
    (plan : List (Nat × Nat)) : CompResult :=
  match runPlan f0 f1 maxChunk plan initState with
  | .error m => .mismatch m.1 m.2
  | .ok st => if st.acc0 = st.acc1 then .matched st.totRead else .silentDiff

/-- Outcome of the declared-size check (src 124-135), before any sampling:
both empty (prints that the files are identical and exits), nonzero but
different sizes (prints the mismatch message and exits with status 3),
first empty but not the second (prints the one-empty mismatch message and
then falls through; `f_size` was never assigned — line 124 assigns the
misspelled `f_sizes` — so the very next use of `f_size` at src 138 aborts
the run with an unhandled NameError, still before any sampling or read),
or equal nonzero sizes (the run proceeds with `f_size`). -/
inductive SizeCheck
  | emptyMatch
  | mismatchExit
  | mismatchCrash
  | proceed (fsize : Nat)
deriving DecidableEq

/-- The declared-size check itself (src 124-135), in source order. -/
def sizeCheck (s0 s1 : Nat) : SizeCheck :=
  if s0 = 0 then
    if s1 = 0 then .emptyMatch else .mismatchCrash
  else if s0 ≠ s1 then .mismatchExit
  else .proceed s0

/- ------------------------------------------------------------------ -/
/- Lemmas and claim theorems                                           -/
/- ------------------------------------------------------------------ -/

lemma randint_le (lo hi raw : Nat) (h : lo ≤ hi) : randint lo hi raw ≤ hi := by
  have hpos : 0 < hi + 1 - lo := by omega
  have := Nat.mod_lt raw hpos
  unfold randint
  omega

lemma le_randint (lo hi raw : Nat) : lo ≤ randint lo hi raw := Nat.le_add_right _ _

lemma le_drawEnd (minC maxRand s rem raw : Nat) : s ≤ drawEnd minC maxRand s rem raw := by
  unfold drawEnd
  split
  · split
    · omega
    · have := le_randint (s + minC) (s + rem) raw
      omega
  · have := le_randint (s + minC) (s + maxRand) raw
    omega

lemma drawEnd_le (minC maxRand s rem raw : Nat)
    (hg : ¬(maxRand < rem ∧ maxRand < minC)) :
    drawEnd minC maxRand s rem raw ≤ s + rem := by
  unfold drawEnd
  split
  · split
    · omega
    · rename_i h1 h2
      have := randint_le (s + minC) (s + rem) raw (by omega)
      omega
  · rename_i h1
    have := randint_le (s + minC) (s + maxRand) raw (by omega)
    omega

lemma overlapsAny_eq_false {s e : Nat} {acc : List (Nat × Nat)} :
    overlapsAny s e acc = false ↔ ∀ q ∈ acc, e ≤ q.1 ∨ q.2 ≤ s := by
  induction acc with
  | nil => simp [overlapsAny]
  | cons q rest ih =>
    simp only [overlapsAny, Bool.or_eq_false_iff, Bool.and_eq_false_iff,
      decide_eq_false_iff_not, List.mem_cons, ih]
    constructor
    · rintro ⟨h1, h2⟩ x hx
      rcases hx with rfl | hx
      · omega
      · exact h2 x hx
    · intro h
      refine ⟨?_, fun x hx => h x (Or.inr hx)⟩
      have := h q (Or.inl rfl)
      omega

lemma sumLens_nil : sumLens [] = 0 := rfl

lemma sumLens_cons (a b : Nat) (l : List (Nat × Nat)) :
    sumLens ((a, b) :: l) = b + sumLens l := by
  simp [sumLens]

lemma sumLens_append (l1 l2 : List (Nat × Nat)) :
    sumLens (l1 ++ l2) = sumLens l1 + sumLens l2 := by
  simp [sumLens]

/-- Whenever the random-strategy loop reaches its normal exit, the lengths of
the yielded ranges account exactly for the gap between the bytes already
read and the budget. -/
lemma randomChunksAux_sum (size minC maxRand : Nat) (rng : Nat → Nat)
    (fuel ctr budget bytesRead : Nat) (acc : List (Nat × Nat)) :
    bytesRead ≤ budget →
    ∀ plan,
      randomChunksAux size minC maxRand rng fuel ctr budget bytesRead acc = (plan, true) →
      bytesRead + sumLens plan = budget := by
  induction fuel, ctr, budget, bytesRead, acc
      using randomChunksAux.induct size minC maxRand rng with
  | case1 ctr budget bytesRead acc =>
    intro hle plan h
    simp [randomChunksAux] at h
  | case2 fuel ctr bytesRead acc =>
    intro hle plan h
    simp [randomChunksAux] at h
    subst h
    rw [sumLens_nil]
    omega
  | case3 fuel ctr budget bytesRead acc hne hg =>
    intro hle plan h
    simp only [randomChunksAux, if_neg hne, if_pos hg] at h
    simp at h
  | case4 fuel ctr budget bytesRead acc hne hg hov ih =>
    intro hle plan h
    simp only [randomChunksAux, if_neg hne, if_neg hg, if_pos hov] at h
    exact ih hle plan h
  | case5 fuel ctr budget bytesRead acc hne hg hov hes =>
    intro hle plan h
    simp only [randomChunksAux, if_neg hne, if_neg hg, if_neg hov, if_pos hes] at h
    simp at h
  | case6 fuel ctr budget bytesRead acc hne hg hov hes ih =>
    intro hle plan h
    simp only [randomChunksAux, if_neg hne, if_neg hg, if_neg hov, if_neg hes] at h
    rw [Prod.mk.injEq] at h
    obtain ⟨h1, h2⟩ := h
    subst h1
    have hE : drawEnd minC maxRand (randint 0 (size - minC) (rng ctr))
        (budget - bytesRead) (rng (ctr + 1))
        ≤ randint 0 (size - minC) (rng ctr) + (budget - bytesRead) :=
      drawEnd_le _ _ _ _ _ hg
    have hle2 : bytesRead
        + (drawEnd minC maxRand (randint 0 (size - minC) (rng ctr))
            (budget - bytesRead) (rng (ctr + 1))
           - randint 0 (size - minC) (rng ctr)) ≤ budget := by omega
    have ih2 := ih hle2 _ (by rw [← h2])
    rw [sumLens_cons]
    omega

/-- Every range yielded by the random-strategy loop avoids every interval of
the accumulated `read_chunks` list, and the yielded ranges are pairwise
non-overlapping — whether or not the loop ever reaches its exit. -/
lemma randomChunksAux_pairwise (size minC maxRand : Nat) (rng : Nat → Nat)
    (fuel ctr budget bytesRead : Nat) (acc : List (Nat × Nat)) :
    (∀ p ∈ (randomChunksAux size minC maxRand rng fuel ctr budget bytesRead acc).1,
        ∀ q ∈ acc, p.1 + p.2 ≤ q.1 ∨ q.2 ≤ p.1)
    ∧ List.Pairwise noOv
        (randomChunksAux size minC maxRand rng fuel ctr budget bytesRead acc).1 := by
  induction fuel, ctr, budget, bytesRead, acc
      using randomChunksAux.induct size minC maxRand rng with
  | case1 ctr budget bytesRead acc =>
    simp [randomChunksAux]
  | case2 fuel ctr bytesRead acc =>
    simp [randomChunksAux]
  | case3 fuel ctr budget bytesRead acc hne hg =>
    simp [randomChunksAux, if_neg hne, if_pos hg]
  | case4 fuel ctr budget bytesRead acc hne hg hov ih =>
    simp only [randomChunksAux, if_neg hne, if_neg hg, if_pos hov]
    exact ih
  | case5 fuel ctr budget bytesRead acc hne hg hov hes =>
    simp [randomChunksAux, if_neg hne, if_neg hg, if_neg hov, if_pos hes]
  | case6 fuel ctr budget bytesRead acc hne hg hov hes ih =>
    simp only [randomChunksAux, if_neg hne, if_neg hg, if_neg hov, if_neg hes]
    obtain ⟨ih1, ih2⟩ := ih
    have hov2 : overlapsAny (randint 0 (size - minC) (rng ctr))
        (drawEnd minC maxRand (randint 0 (size - minC) (rng ctr))
          (budget - bytesRead) (rng (ctr + 1))) acc = false := by
      rwa [Bool.not_eq_true] at hov
    have hse : randint 0 (size - minC) (rng ctr)
        ≤ drawEnd minC maxRand (randint 0 (size - minC) (rng ctr))
            (budget - bytesRead) (rng (ctr + 1)) :=
      le_drawEnd _ _ _ _ _
    have hfree := overlapsAny_eq_false.mp hov2
    constructor
    · intro p hp q hq
      rcases List.mem_cons.mp hp with rfl | hp
      · have := hfree q hq
        simp only []
        omega
      · exact ih1 p hp q (List.mem_append_left _ hq)
    · refine List.pairwise_cons.mpr ⟨fun x hx => ?_, ih2⟩
      have := ih1 x hx _ (List.mem_append_right _ (List.mem_singleton.mpr rfl))
      unfold noOv
      simp only [] at this ⊢
      omega

lemma sumLens_singleton (a b : Nat) : sumLens [(a, b)] = b := by
  simp [sumLens]

lemma sumLens_map_range (n d : Nat) (f : Nat → Nat) :
    sumLens ((List.range n).map (fun c => (f c, d))) = n * d := by
  induction n with
  | zero => simp [sumLens]
  | succ n ih =>
    rw [List.range_succ, List.map_append, sumLens_append, ih]
    simp [sumLens]
    ring

/-- The duty-window offsets are always integral when `cycles` divides
`size_precise` (which holds on every run: `size_precise` is a multiple of
`bytes_precise = cycles * duty`): the division of src 208 never produces a
fractional byte position under exact arithmetic. -/
lemma dutyOffsetInt_of_dvd (sp cy c : Nat) (h : cy ∣ sp) :
    dutyOffsetInt sp cy c = true := by
  obtain ⟨q, rfl⟩ := h
  simp [dutyOffsetInt, Nat.mul_assoc, Nat.mul_mod_right]

/-- Sum of the lengths of every successfully generated duty plan: the
`cycles` full windows contribute `bytes_precise`, and the final window
contributes `rem_size` on the truncation path (`rem_size ≤ rem_bytes`) and
`rem_bytes` otherwise — together `bytes_precise + min rem_size rem_bytes`. -/
lemma dutyChunks_sum (size budget duty : Nat) (plan : List (Nat × Nat))
    (h : dutyChunks size budget duty = Except.ok plan) :
    sumLens plan = budget - budget % duty
      + min (size % (budget - budget % duty)) (budget % duty) := by
  simp only [dutyChunks] at h
  split at h
  · exact Except.noConfusion h
  · split at h
    · exact Except.noConfusion h
    · split at h
      · injection h with h1
        subst h1
        rw [sumLens_append, sumLens_map_range, sumLens_singleton, Nat.min_def]
        have hdvd : duty ∣ (budget - budget % duty) := ⟨budget / duty, by
          have := Nat.div_add_mod budget duty
          omega⟩
        rw [Nat.div_mul_cancel hdvd]
      · exact Except.noConfusion h

/-- C1 (refuted): on the truncation-notice path of the periodic-duty
strategy the final window is cut and the plan sum falls short of the
budget.  Stream length 1000, budget 250, duty size 100: `rem_bytes = 50`,
`bytes_precise = 200`, `rem_size = 1000 % 200 = 0 ≤ 50`, so the final
window has length 0 and the plan sums to 200, not 250. -/
theorem claim1_counterexample :
    dutyChunks 1000 250 100 = Except.ok [(0, 100), (500, 100), (1000, 0)]
    ∧ sumLens [(0, 100), (500, 100), (1000, 0)] = 200
    ∧ (200 : Nat) ≠ 250 := ⟨rfl, rfl, by decide⟩

/-- C1 (amended): the sum of range lengths equals the requested budget for
every uniform-random plan whose generation loop completes, for every
periodic-duty plan off the truncation-notice path
(`size mod bytes_precise > budget mod dutySize`), and for every
single-window plan with zero start offset; on the truncation path a duty
plan sums to `bytes_precise + (size mod bytes_precise)`, which can be less
than the budget (and a single-window plan with nonzero start sums to
`startOffset + budget`, see the C5 bug). -/
theorem claim1_exact_budget_amended :
    (∀ size minRaw maxRand rng fuel budget plan,
        randomChunks size minRaw maxRand rng fuel budget = (plan, true) →
        sumLens plan = budget)
    ∧ (∀ size budget duty plan,
        dutyChunks size budget duty = Except.ok plan →
        sumLens plan = budget - budget % duty
          + min (size % (budget - budget % duty)) (budget % duty))
    ∧ (∀ size budget duty plan,
        dutyChunks size budget duty = Except.ok plan →
        budget % duty < size % (budget - budget % duty) →
        sumLens plan = budget)
    ∧ (∀ budget, sumLens (chunkModeChunks 0 budget) = budget) := by
  refine ⟨?_, fun size budget duty plan h => dutyChunks_sum size budget duty plan h, ?_,
    fun budget => by simp [chunkModeChunks, sumLens]⟩
  · intro size minRaw maxRand rng fuel budget plan h
    have h2 : randomChunksAux size (if size < minRaw then size else minRaw) maxRand rng
        fuel 0 budget 0 [] = (plan, true) := h
    have h3 := randomChunksAux_sum size (if size < minRaw then size else minRaw) maxRand
        rng fuel 0 budget 0 [] (Nat.zero_le _) plan h2
    omega
  · intro size budget duty plan h hlt
    have h2 := dutyChunks_sum size budget duty plan h
    have h3 : min (size % (budget - budget % duty)) (budget % duty) = budget % duty :=
      Nat.min_eq_right (Nat.le_of_lt hlt)
    have h4 : budget % duty ≤ budget := Nat.mod_le _ _
    rw [h2, h3]
    omega

/-- Witness for the amended C1: a concrete completed random plan (budget
20) sums to 20, and a concrete duty plan off the truncation path (stream
1050, budget 230, duty 100) sums to 230. -/
theorem claim1_witness :
    sumLens [(0, 10), (100, 10)] = 20
    ∧ sumLens [(0, 100), (500, 100), (1000, 30)] = 230 :=
  ⟨claim1_exact_budget_amended.1 1000 10 100 (fun n => if n < 2 then 0 else 100) 3 20
      [(0, 10), (100, 10)] rfl,
   claim1_exact_budget_amended.2.2.1 1050 230 100 [(0, 100), (500, 100), (1000, 30)] rfl
      (by decide)⟩

set_option maxRecDepth 40000 in
/-- C5 (refuted, code bug): with a nonzero start offset the single-window
strategy yields `(chunk_start, chunk_start + bytes_)` (src 168), and the
main loop consumes the second component as a length, so the comparator
reads `chunk_start + bytes_` bytes from the start offset instead of the
requested `bytes_`.  Concretely: start 50, budget 100 yields `(50, 150)`
and the run over two identical 300-byte streams reads 150 bytes. -/
theorem claim5_chunk_start_length :
    chunkModeChunks 50 100 = [(50, 150)]
    ∧ compareRun (List.replicate 300 2) (List.replicate 300 2) 1000
        (chunkModeChunks 50 100) = CompResult.matched 150
    ∧ (150 : Nat) ≠ 100 := ⟨rfl, rfl, by decide⟩

set_option maxRecDepth 40000 in
/-- C6 (refuted, code bug): the mismatch interval is computed from the
mutated loop variable `chunk` (src 233 reads `chunk` after the
`chunk -= args.max_chunk_size` of src 245), so a divergence detected on a
sub-read after the first reports `(offset, offset + remaining)` instead of
`(offset, offset + originalLength)`.  Concretely: range `(0, 250)`, max
chunk size 100, streams differing at byte 150 — the divergence is detected
on the second sub-read and the code reports interval `(0, 150)`, not the
claimed `(0, 250)`. -/
theorem claim6_shrunk_interval :
    compareRun (List.replicate 250 0)
        (List.replicate 150 0 ++ 1 :: List.replicate 99 0) 100 [(0, 250)]
      = CompResult.mismatch 0 150
    ∧ (150 : Nat) ≠ 0 + 250 := ⟨rfl, by decide⟩

set_option maxRecDepth 40000 in
/-- C7 (refuted, code bug): `read_and_digest` (src 227-234) never inspects
the number of bytes a read returned; a short read is digested and the run
continues — there is no IOError path at all (and the parsed
`--ignore-size` flag is never consulted).  Concretely: two identical
10-byte streams and the range `(0, 20)` — each read returns 10 of the 20
requested bytes, yet the run completes and reports a match with
`tot_read = 20`. -/
theorem claim7_short_read_ignored :
    (readBytes (List.replicate 10 7) 0 20).length = 10
    ∧ (10 : Nat) < 20
    ∧ compareRun (List.replicate 10 7) (List.replicate 10 7) 100 [(0, 20)]
        = CompResult.matched 20 := ⟨rfl, by decide, rfl⟩

/-- C2: every plan produced by the uniform-random strategy consists of
pairwise non-overlapping ranges: for all i ≠ j, range i ends at or before
range j starts, or the other way round. -/
theorem claim2_no_overlap (size minRaw maxRand : Nat) (rng : Nat → Nat)
    (fuel budget : Nat) (plan : List (Nat × Nat)) (done : Bool)
    (h : randomChunks size minRaw maxRand rng fuel budget = (plan, done)) :
    List.Pairwise noOv plan := by
  have h1 : plan = (randomChunks size minRaw maxRand rng fuel budget).1 := by
    rw [h]
  rw [h1]
  exact (randomChunksAux_pairwise size (if size < minRaw then size else minRaw)
    maxRand rng fuel 0 budget 0 []).2

/-- Witness for C2: a complete concrete uniform-random plan with two ranges,
obtained from explicit draws, is pairwise non-overlapping. -/
theorem claim2_witness : List.Pairwise noOv [((0 : Nat), (10 : Nat)), (100, 10)] :=
  claim2_no_overlap 1000 10 100 (fun n => if n < 2 then 0 else 100) 3 20
    [(0, 10), (100, 10)] true rfl

/-- C3 (refuted, code bug): the random strategy can accept a range that ends
beyond the end of the stream.  With stream length 100, minimum random chunk
10, maximum random chunk 100 (all within the spec's preconditions) and the
explicit draws 90 and 5, the first accepted range is `(90, 15)`, and
`90 + 15 = 105 > 100`: the candidate end drawn at src 180 is never capped at
the stream length. -/
theorem claim3_range_beyond_eof :
    randomChunks 100 10 100 (fun n => if n = 0 then 90 else if n = 1 then 5 else 0) 3 20
      = ([(90, 15), (0, 5)], true)
    ∧ 100 < 90 + 15 := ⟨rfl, by decide⟩

/-- In the pathological state reached below (budget 100, 60 bytes read,
`read_chunks = [(0, 60)]`, stream length 100, minimum chunk 60, constant
draws 0) every retry of the random-strategy loop rejects its candidate, so
the loop never reaches its exit for any fuel. -/
lemma randomStuck (fuel ctr : Nat) :
    randomChunksAux 100 60 100 (fun _ => 0) fuel ctr 100 60 [(0, 60)]
      = ([], false) := by
  induction fuel generalizing ctr with
  | zero => rfl
  | succ fuel ih => exact ih (ctr + 2)

/-- C4 (refuted, code bug): the random strategy's retry loop is unbounded.
With stream length 100, clamped minimum chunk 60, maximum chunk 100 and
budget 100 (the spec's own "pathological parameterization"), after the first
accepted range `(0, 60)` every subsequent candidate overlaps it, and the
loop retries forever: for every retry bound the model's loop flag stays
false, and the source (src 171-189) has no retry ceiling and no
SamplingExhausted error at all. -/
theorem claim4_unbounded_retry (fuel : Nat) :
    (randomChunks 100 60 100 (fun _ => 0) fuel 100).2 = false := by
  cases fuel with
  | zero => rfl
  | succ fuel =>
    have h := randomStuck fuel 2
    show (randomChunksAux 100 60 100 (fun _ => 0) fuel 2 100 60 [(0, 60)]).2 = false
    rw [h]

/-- C8: whenever the two declared sizes differ, the size check ends the run
before any sampling: either with the clean mismatch-and-exit path
(src 131-133) or, when exactly the first stream is empty, with the mismatch
message followed by the unhandled NameError on the never-assigned `f_size`
(src 129-130 fall through to src 138); in both cases no ComparisonResult is
produced. -/
theorem claim8_length_mismatch (s0 s1 : Nat) (h : s0 ≠ s1) :
    sizeCheck s0 s1 = SizeCheck.mismatchExit
    ∨ sizeCheck s0 s1 = SizeCheck.mismatchCrash := by
  by_cases h0 : s0 = 0
  · have h1 : ¬s1 = 0 := by omega
    right
    simp [sizeCheck, h0, h1]
  · left
    simp [sizeCheck, h0, h]

/-- Witness for C8: sizes 0 and 5 (first stream empty) take the
report-then-crash path, aborting before sampling. -/
theorem claim8_witness :
    sizeCheck 0 5 = SizeCheck.mismatchExit
    ∨ sizeCheck 0 5 = SizeCheck.mismatchCrash :=
  claim8_length_mismatch 0 5 (by decide)

/-- C9: the periodic-duty strategy is deterministic — its output depends
only on `(streamLength, budgetBytes, dutySize)`, not on the random source,
the model fuel, or any other strategy parameter. -/
theorem claim9_duty_deterministic (size budget duty cs1 cs2 min1 min2 max1 max2 : Nat)
    (rng1 rng2 : Nat → Nat) (fuel1 fuel2 : Nat) :
    chunksModel Mode.duty size budget cs1 duty min1 max1 rng1 fuel1
      = chunksModel Mode.duty size budget cs2 duty min2 max2 rng2 fuel2 := rfl

/-- C10: for every budget strictly smaller than the duty size, the rounded
budget `bytes_precise` is zero and the duty strategy aborts with the
(unguarded) division-by-zero of `size % bytes_precise` (src 199), not with
an InvalidParameter report. -/
theorem claim10_duty_div_zero (size budget duty : Nat) (h0 : 0 < duty)
    (h1 : budget < duty) :
    dutyChunks size budget duty = Except.error PyErr.zeroDivision := by
  have hne : ¬duty = 0 := by omega
  have h2 : budget - budget % duty = 0 := by
    have := Nat.mod_eq_of_lt h1
    omega
  simp [dutyChunks, hne, h2]

/-- Witness for C10: stream length 1000, budget 50, duty size 100 hits the
division-by-zero abort. -/
theorem claim10_witness :
    dutyChunks 1000 50 100 = Except.error PyErr.zeroDivision :=
  claim10_duty_div_zero 1000 50 100 (by decide) (by decide)

end SparseHash
